import Mathlib

/-!
Shallow embedding of the Payment & Referral Ledger of `bot_shop_universal`
(src/db.py, src/main.py, src/slh_core_api.py).

SQL rows become Lean structures, tables become lists kept in insertion
order, and `NOW()` / `SERIAL` become a single strictly increasing logical
clock `DB.clock`: every write stamps the current clock value into the new
row's `id` / `created_at` / `updated_at` and advances the clock, which
models the source's assumption that each statement runs in its own
transaction at a strictly later timestamp.  Statuses stay strings exactly
as in the source (`'pending'`, `'approved'`, `'rejected'`).
-/

namespace BotShop

/-- A row of the `payments` table (db.py, `init_schema`). -/
structure PaymentRow where
  id : Nat
  user_id : Nat
  username : Option String
  pay_method : String
  status : String
  reason : Option String
  created_at : Nat
  updated_at : Nat
deriving Repr, DecidableEq

/-- A row of the `referrals` table. -/
structure ReferralRow where
  id : Nat
  referrer_id : Nat
  referred_user_id : Nat
  source : Option String
  created_at : Nat
deriving Repr, DecidableEq

/-- A row of the `rewards` table (only the columns the queries read). -/
structure RewardRow where
  id : Nat
  user_id : Nat
  reward_type : String
  reason : Option String
  points : Int
  created_at : Nat
deriving Repr, DecidableEq

/-- A row of the `promoters` table. -/
structure PromoterRow where
  user_id : Nat
  bank_details : Option String
  personal_group_link : Option String
  global_group_link : Option String
  custom_price : Option Int
  created_at : Nat
  updated_at : Nat
deriving Repr, DecidableEq

/-- A row of the `users` table. -/
structure UserRow where
  user_id : Nat
  username : Option String
  created_at : Nat
deriving Repr, DecidableEq

/-- The database state: one list per table plus the logical clock. -/
structure DB where
  users : List UserRow
  payments : List PaymentRow
  referrals : List ReferralRow
  rewards : List RewardRow
  promoters : List PromoterRow
  clock : Nat
deriving Repr, DecidableEq

/-- The empty database, clock started at 0. -/
def DB.empty : DB := ⟨[], [], [], [], [], 0⟩

/-! ### payments (db.py `log_payment`, `update_payment_status`, `get_approval_stats`) -/

/-- `log_payment`: INSERT INTO payments ... VALUES (..., 'pending'). -/
def log_payment (db : DB) (user_id : Nat) (username : Option String)
    (pay_method : String) : DB :=
  { db with
    payments := db.payments ++
      [⟨db.clock, user_id, username, pay_method, "pending", none, db.clock, db.clock⟩],
    clock := db.clock + 1 }

/-- One step of the scan realising `ORDER BY created_at DESC LIMIT 1` over the
rows of one user: keep the row with the greatest `created_at` seen so far. -/
def pickLater (u : Nat) (acc : Option PaymentRow) (p : PaymentRow) :
    Option PaymentRow :=
  if p.user_id = u then
    match acc with
    | none => some p
    | some q => if q.created_at < p.created_at then some p else acc
  else acc

/-- The subquery `SELECT id FROM payments WHERE user_id = u ORDER BY
created_at DESC LIMIT 1` of `update_payment_status`, returning the row. -/
def latest_for (db : DB) (u : Nat) : Option PaymentRow :=
  db.payments.foldl (pickLater u) none

/-- `update_payment_status`: UPDATE the row selected by `latest_for`;
a user with no payment rows makes the UPDATE match nothing. -/
def update_payment_status (db : DB) (user_id : Nat) (status : String)
    (reason : Option String) : DB :=
  match latest_for db user_id with
  | none => { db with clock := db.clock + 1 }
  | some q =>
    { db with
      payments := db.payments.map (fun p =>
        if p.id = q.id then
          { p with status := status, reason := reason, updated_at := db.clock }
        else p),
      clock := db.clock + 1 }

/-- The record returned by `get_approval_stats`. -/
structure ApprovalStats where
  total : Nat
  approved : Nat
  rejected : Nat
  pending : Nat
deriving Repr, DecidableEq

/-- `get_approval_stats`: global COUNT(*) per status. -/
def get_approval_stats (db : DB) : ApprovalStats :=
  { total := db.payments.length
    approved := db.payments.countP (fun p => p.status == "approved")
    rejected := db.payments.countP (fun p => p.status == "rejected")
    pending := db.payments.countP (fun p => p.status == "pending") }

/-! ### referrals (db.py `add_referral`, `get_top_referrers`) -/

/-- `COALESCE(source, '')` as used by the unique index `idx_referrals_unique`. -/
def coalesce_source (s : Option String) : String := s.getD ""

/-- A stored row collides with an insert of `(referrer, referred, source)`
under the uniqueness key `(referrer_id, referred_user_id, COALESCE(source,''))`. -/
def referral_key_match (referrer referred : Nat) (source : Option String)
    (r : ReferralRow) : Prop :=
  r.referrer_id = referrer ∧ r.referred_user_id = referred ∧
    coalesce_source r.source = coalesce_source source

instance (referrer referred : Nat) (source : Option String) (r : ReferralRow) :
    Decidable (referral_key_match referrer referred source r) := by
  unfold referral_key_match; infer_instance

/-- `add_referral`: INSERT ... ON CONFLICT DO NOTHING keyed by the unique
index; a colliding row leaves the table untouched. -/
def add_referral (db : DB) (referrer_id referred_user_id : Nat)
    (source : Option String := none) : DB :=
  if ∃ r ∈ db.referrals, referral_key_match referrer_id referred_user_id source r then
    { db with clock := db.clock + 1 }
  else
    { db with
      referrals := db.referrals ++
        [⟨db.clock, referrer_id, referred_user_id, source, db.clock⟩],
      clock := db.clock + 1 }

/-- `create_reward`: INSERT INTO rewards. -/
def create_reward (db : DB) (user_id : Nat) (reward_type : String)
    (reason : Option String) (points : Int) : DB :=
  { db with
    rewards := db.rewards ++ [⟨db.clock, user_id, reward_type, reason, points, db.clock⟩],
    clock := db.clock + 1 }

/-- `store_user`: INSERT ... ON CONFLICT (user_id) DO UPDATE SET username. -/
def store_user (db : DB) (user_id : Nat) (username : Option String) : DB :=
  if db.users.any (fun u => u.user_id == user_id) then
    { db with
      users := db.users.map (fun u =>
        if u.user_id = user_id then { u with username := username } else u),
      clock := db.clock + 1 }
  else
    { db with
      users := db.users ++ [⟨user_id, username, db.clock⟩],
      clock := db.clock + 1 }

/-! ### promoters (db.py `ensure_promoter`, `get_promoter_summary`) -/

/-- `ensure_promoter`: INSERT ... ON CONFLICT (user_id) DO NOTHING. -/
def ensure_promoter (db : DB) (user_id : Nat) : DB :=
  if db.promoters.any (fun pr => pr.user_id == user_id) then
    { db with clock := db.clock + 1 }
  else
    { db with
      promoters := db.promoters ++
        [⟨user_id, none, none, none, none, db.clock, db.clock⟩],
      clock := db.clock + 1 }

/-- The join-count of `get_promoter_summary`'s second query:
COUNT(*) over payments JOIN referrals ON referred_user_id = payments.user_id
WHERE referrer_id = u AND payments.status = 'approved'.  Each matching
(referral row, payment row) pair contributes 1. -/
def approved_join_count (db : DB) (u : Nat) : Nat :=
  ((db.referrals.filter (fun r => r.referrer_id == u)).map (fun r =>
    (db.payments.filter (fun p =>
      p.user_id == r.referred_user_id && p.status == "approved")).length)).sum

/-- The record `get_promoter_summary` returns. -/
structure PromoterSummary where
  user_id : Nat
  bank_details : Option String
  personal_group_link : Option String
  global_group_link : Option String
  custom_price : Option Int
  created_at : Nat
  updated_at : Nat
  total_referrals : Nat
  approved_referrals : Nat
deriving Repr, DecidableEq

/-- `get_promoter_summary`: the promoter row (or None), plus
COUNT(*) of referral rows and the approved join-count. -/
def get_promoter_summary (db : DB) (user_id : Nat) : Option PromoterSummary :=
  match db.promoters.find? (fun pr => pr.user_id == user_id) with
  | none => none
  | some pr =>
    some
      { user_id := pr.user_id
        bank_details := pr.bank_details
        personal_group_link := pr.personal_group_link
        global_group_link := pr.global_group_link
        custom_price := pr.custom_price
        created_at := pr.created_at
        updated_at := pr.updated_at
        total_referrals := (db.referrals.filter (fun r => r.referrer_id == user_id)).length
        approved_referrals := approved_join_count db user_id }

/-! ### `get_top_referrers` (db.py) -/

/-- Deduplicate keeping the first occurrence (the GROUP BY key set). -/
def dedupFirst (l : List Nat) : List Nat :=
  l.foldl (fun acc x => if x ∈ acc then acc else acc ++ [x]) []

/-- `u.username` of the LEFT JOIN with users (user_id is a primary key). -/
def lookup_username (db : DB) (u : Nat) : Option String :=
  match db.users.find? (fun w => w.user_id == u) with
  | none => none
  | some w => w.username

/-- The referral rows of one referrer. -/
def referral_rows_of (db : DB) (u : Nat) : List ReferralRow :=
  db.referrals.filter (fun r => r.referrer_id == u)

/-- `COUNT(DISTINCT r.referred_user_id)` for one referrer. -/
def distinct_referred_count (db : DB) (u : Nat) : Nat :=
  (dedupFirst ((referral_rows_of db u).map (fun r => r.referred_user_id))).length

/-- The summed points of the referrer's reward rows. -/
def reward_points_sum (db : DB) (u : Nat) : Int :=
  ((db.rewards.filter (fun w => w.user_id == u)).map (fun w => w.points)).sum

/-- `SUM(CASE WHEN rw.points IS NULL THEN 0 ELSE rw.points END)` over the
LEFT JOIN `referrals r LEFT JOIN rewards rw ON rw.user_id = r.referrer_id`,
grouped by referrer: every referral row of the referrer is paired with every
reward row of the referrer (with a single all-NULL row, contributing 0, when
the referrer has no rewards), so each referral row contributes the full
reward-points sum once. -/
def join_points (db : DB) (u : Nat) : Int :=
  ((referral_rows_of db u).map (fun _ => reward_points_sum db u)).sum

/-- One output row of `get_top_referrers`. -/
structure TopReferrerEntry where
  referrer_id : Nat
  username : Option String
  total_referrals : Nat
  total_points : Int
deriving Repr, DecidableEq

/-- The grouped row of one referrer. -/
def entry_of (db : DB) (u : Nat) : TopReferrerEntry :=
  ⟨u, lookup_username db u, distinct_referred_count db u, join_points db u⟩

/-- `ORDER BY total_referrals DESC, total_points DESC` as a relation. -/
def top_order (a b : TopReferrerEntry) : Prop :=
  b.total_referrals < a.total_referrals ∨
    (a.total_referrals = b.total_referrals ∧ b.total_points ≤ a.total_points)

instance (a b : TopReferrerEntry) : Decidable (top_order a b) := by
  unfold top_order; infer_instance

instance : IsTotal TopReferrerEntry top_order where
  total a b := by
    unfold top_order
    rcases Nat.lt_trichotomy a.total_referrals b.total_referrals with h | h | h
    · exact Or.inr (Or.inl h)
    · rcases le_total b.total_points a.total_points with hp | hp
      · exact Or.inl (Or.inr ⟨h, hp⟩)
      · exact Or.inr (Or.inr ⟨h.symm, hp⟩)
    · exact Or.inl (Or.inl h)

instance : IsTrans TopReferrerEntry top_order where
  trans a b c hab hbc := by
    unfold top_order at *
    rcases hab with h1 | ⟨h1, p1⟩
    · rcases hbc with h2 | ⟨h2, p2⟩
      · exact Or.inl (h2.trans h1)
      · exact Or.inl (h2 ▸ h1)
    · rcases hbc with h2 | ⟨h2, p2⟩
      · exact Or.inl (h1 ▸ h2)
      · exact Or.inr ⟨h1.trans h2, p2.trans p1⟩

/-- `get_top_referrers`: group by referrer, order by the two sort keys
descending, LIMIT `limit`. -/
def get_top_referrers (db : DB) (limit : Nat) : List TopReferrerEntry :=
  (List.insertionSort top_order
    ((dedupFirst (db.referrals.map (fun r => r.referrer_id))).map (entry_of db))).take
    limit

/-! ### inbound-update dedup (main.py `is_duplicate_update`)

`_processed_ids` is a `deque(maxlen=1000)` (oldest at the head, appending
to a full deque drops the head) and `_processed_set` a mirrored set,
modelled as a `Finset`. -/

/-- The module-level dedup state of main.py. -/
structure DedupState where
  processed_ids : List Nat
  processed_set : Finset Nat
deriving DecidableEq

/-- The initial (empty) dedup state. -/
def DedupState.empty : DedupState := ⟨[], ∅⟩

/-- `is_duplicate_update` on a non-None update with id `uid`: returns the
boolean decision and the successor state.  Mirrors the source line by line:
membership test, set add, deque append (dropping the oldest entry when the
deque holds 1000), then the amortised compaction
`set.intersection_update(set(deque))` once the set outgrows the deque by
more than 10. -/
def is_duplicate_update (s : DedupState) (uid : Nat) : Bool × DedupState :=
  if uid ∈ s.processed_set then (true, s)
  else
    let set1 := insert uid s.processed_set
    let ids1 :=
      if s.processed_ids.length = 1000 then s.processed_ids.tail ++ [uid]
      else s.processed_ids ++ [uid]
    if set1.card > ids1.length + 10 then
      (false, ⟨ids1, set1.filter (fun x => x ∈ ids1)⟩)
    else
      (false, ⟨ids1, set1⟩)

/-- Feed a whole sequence of update ids through `is_duplicate_update`. -/
def run_dedup (s : DedupState) (l : List Nat) : DedupState :=
  l.foldl (fun st uid => (is_duplicate_update st uid).2) s

/-! ### referral telemetry graph (slh_core_api.py)

`_REFERRAL_GRAPH : Dict[int, List[int]]` becomes an insertion-ordered
association list, `_USER_ALIASES` a lookup list, `_VISITS` a list of
events. -/

/-- One `_VISITS` event as built by `track_visit`. -/
structure VisitEvent where
  referrer_id : Nat
  visitor_id : Option Nat
  source : String
  ts : Nat
deriving Repr, DecidableEq

/-- The module-level telemetry state of slh_core_api.py. -/
structure TelemetryState where
  graph : List (Nat × List Nat)
  aliases : List (Nat × String)
  visits : List VisitEvent
deriving Repr, DecidableEq

/-- The initial telemetry state. -/
def TelemetryState.empty : TelemetryState := ⟨[], [], []⟩

/-- `_REFERRAL_GRAPH.get(u, [])`. -/
def children_of (g : List (Nat × List Nat)) (u : Nat) : List Nat :=
  match g.find? (fun e => e.1 == u) with
  | none => []
  | some e => e.2

/-- `_USER_ALIASES.get(u)`. -/
def alias_of (t : TelemetryState) (u : Nat) : Option String :=
  match t.aliases.find? (fun e => e.1 == u) with
  | none => none
  | some e => some e.2

/-- `_add_relation`: ignore self-loops; `setdefault(referrer, [])` then
append the visitor unless already present. -/
def add_relation (g : List (Nat × List Nat)) (referrer_id visitor_id : Nat) :
    List (Nat × List Nat) :=
  if referrer_id = visitor_id then g
  else if g.any (fun e => e.1 == referrer_id) then
    g.map (fun e =>
      if e.1 = referrer_id then
        (e.1, if visitor_id ∈ e.2 then e.2 else e.2 ++ [visitor_id])
      else e)
  else g ++ [(referrer_id, [visitor_id])]

/-- `_collect_all_users()`: every key and every child of the graph. -/
def is_graph_user (g : List (Nat × List Nat)) (u : Nat) : Prop :=
  ∃ e ∈ g, e.1 = u ∨ u ∈ e.2

instance (g : List (Nat × List Nat)) (u : Nat) : Decidable (is_graph_user g u) := by
  unfold is_graph_user; infer_instance

/-- `track_visit`: always append the event; add the edge only when
`req.visitor_id` is truthy in Python, i.e. not None and not 0.  The
timestamp is `req.ts or time.time()` — a `ts` of 0 is falsy and also falls
back to the ambient time `now`. -/
def track_visit (t : TelemetryState) (referrer_id : Nat) (visitor_id : Option Nat)
    (source : Option String) (ts : Option Nat) (now : Nat) : TelemetryState :=
  let tsv := match ts with
    | some v => if v ≠ 0 then v else now
    | none => now
  let event : VisitEvent := ⟨referrer_id, visitor_id, source.getD "unknown", tsv⟩
  let t1 := { t with visits := t.visits ++ [event] }
  match visitor_id with
  | some v => if v ≠ 0 then { t1 with graph := add_relation t1.graph referrer_id v } else t1
  | none => t1

/-- `total_relations` of `get_referral_stats`: Σ len over adjacency lists. -/
def total_relations (g : List (Nat × List Nat)) : Nat :=
  (g.map (fun e => e.2.length)).sum

/-- The recursive referral tree node (slh_core_api.py `ReferralNode`). -/
inductive ReferralNode where
  | mk (user_id : Nat) (username : Option String) (children : List ReferralNode)

/-- `_build_tree`: expand children until `depth > max_depth`. -/
def build_tree (t : TelemetryState) (user_id : Nat) (depth : Nat := 0)
    (max_depth : Nat := 6) : ReferralNode :=
  if h : depth > max_depth then
    ReferralNode.mk user_id (alias_of t user_id) []
  else
    ReferralNode.mk user_id (alias_of t user_id)
      ((children_of t.graph user_id).map (fun c =>
        build_tree t c (depth + 1) max_depth))
termination_by max_depth + 1 - depth
decreasing_by omega

/-- `get_referral_tree`: unknown users get a bare leaf, known users the
recursive expansion from depth 0 with the default cap 6. -/
def get_referral_tree (t : TelemetryState) (user_id : Nat) : ReferralNode :=
  if is_graph_user t.graph user_id ∨ (t.graph.any (fun e => e.1 == user_id)) then
    build_tree t user_id
  else
    ReferralNode.mk user_id (alias_of t user_id) []

/-- The node set reachable in at most `n` levels: `DepthLe n tree` bounds the
tree's node depth by `n`. -/
inductive DepthLe : Nat → ReferralNode → Prop where
  | mk (u : Nat) (a : Option String) (cs : List ReferralNode) (n : Nat)
      (h : ∀ c ∈ cs, DepthLe n c) : DepthLe (n + 1) (.mk u a cs)

/-! ### helper lemmas about the `latest_for` scan -/

/-- A payments invariant maintained by every operation: rows are stored in
strictly increasing `created_at` order, every row predates the clock, and
`id` coincides with `created_at` (both are stamped from the same clock). -/
def Inv (db : DB) : Prop :=
  db.payments.Pairwise (fun a b => a.created_at < b.created_at) ∧
  (∀ p ∈ db.payments, p.created_at < db.clock) ∧
  (∀ p ∈ db.payments, p.id = p.created_at)

theorem pick_no_match {u : Nat} :
    ∀ (l : List PaymentRow) (acc : Option PaymentRow),
      (∀ p ∈ l, p.user_id ≠ u) → l.foldl (pickLater u) acc = acc := by
  intro l
  induction l with
  | nil => intro acc _; rfl
  | cons p l ih =>
    intro acc h
    have hp : p.user_id ≠ u := h p (List.mem_cons_self p l)
    have : pickLater u acc p = acc := by simp [pickLater, hp]
    simpa [List.foldl_cons, this] using ih acc (fun q hq => h q (List.mem_cons_of_mem p hq))

theorem pick_mono {u : Nat} :
    ∀ (l : List PaymentRow) (q : PaymentRow),
      ∃ r, l.foldl (pickLater u) (some q) = some r ∧ q.created_at ≤ r.created_at := by
  intro l
  induction l with
  | nil => intro q; exact ⟨q, rfl, le_refl _⟩
  | cons p l ih =>
    intro q
    by_cases hp : p.user_id = u
    · by_cases hlt : q.created_at < p.created_at
      · obtain ⟨r, hr, hle⟩ := ih p
        exact ⟨r, by simpa [List.foldl_cons, pickLater, hp, hlt] using hr,
               le_trans (le_of_lt hlt) hle⟩
      · obtain ⟨r, hr, hle⟩ := ih q
        exact ⟨r, by simpa [List.foldl_cons, pickLater, hp, hlt] using hr, hle⟩
    · obtain ⟨r, hr, hle⟩ := ih q
      exact ⟨r, by simpa [List.foldl_cons, pickLater, hp] using hr, hle⟩

theorem pick_exists {u : Nat} :
    ∀ (l : List PaymentRow) (acc : Option PaymentRow),
      (∃ p ∈ l, p.user_id = u) → ∃ r, l.foldl (pickLater u) acc = some r := by
  intro l
  induction l with
  | nil => intro acc h; obtain ⟨p, hp, _⟩ := h; cases hp
  | cons p l ih =>
    intro acc h
    by_cases hp : p.user_id = u
    · have hsome : ∃ q, pickLater u acc p = some q := by
        cases acc with
        | none => exact ⟨p, by simp [pickLater, hp]⟩
        | some q =>
          by_cases hlt : q.created_at < p.created_at
          · exact ⟨p, by simp [pickLater, hp, hlt]⟩
          · exact ⟨q, by simp [pickLater, hp, hlt]⟩
      obtain ⟨q, hq⟩ := hsome
      obtain ⟨r, hr, _⟩ := pick_mono l q
      exact ⟨r, by simpa [List.foldl_cons, hq] using hr⟩
    · obtain ⟨p', hp', hp'u⟩ := h
      rcases List.mem_cons.mp hp' with h1 | h1
      · exact absurd (h1 ▸ hp'u) hp
      · obtain ⟨r, hr⟩ := ih (pickLater u acc p) ⟨p', h1, hp'u⟩
        exact ⟨r, by simpa [List.foldl_cons] using hr⟩

theorem pick_result_mem {u : Nat} :
    ∀ (l : List PaymentRow) (acc : Option PaymentRow) (r : PaymentRow),
      l.foldl (pickLater u) acc = some r →
      acc = some r ∨ (r ∈ l ∧ r.user_id = u) := by
  intro l
  induction l with
  | nil => intro acc r h; exact Or.inl h
  | cons p l ih =>
    intro acc r h
    rcases ih (pickLater u acc p) r (by simpa [List.foldl_cons] using h) with h1 | h1
    · by_cases hp : p.user_id = u
      · cases acc with
        | none =>
          simp [pickLater, hp] at h1
          exact Or.inr ⟨by simp [← h1], by simp [← h1, hp]⟩
        | some q =>
          by_cases hlt : q.created_at < p.created_at
          · simp [pickLater, hp, hlt] at h1
            exact Or.inr ⟨by simp [← h1], by simp [← h1, hp]⟩
          · simp [pickLater, hp, hlt] at h1
            exact Or.inl (by simp [h1])
      · simp [pickLater, hp] at h1
        exact Or.inl (by simp [h1])
    · exact Or.inr ⟨List.mem_cons_of_mem p h1.1, h1.2⟩

theorem pick_result_max {u : Nat} :
    ∀ (l : List PaymentRow) (acc : Option PaymentRow) (r : PaymentRow),
      l.foldl (pickLater u) acc = some r →
      ∀ p ∈ l, p.user_id = u → p.created_at ≤ r.created_at := by
  intro l
  induction l with
  | nil => intro acc r _ p hp; cases hp
  | cons a l ih =>
    intro acc r h p hp hpu
    have hfold : l.foldl (pickLater u) (pickLater u acc a) = some r := by
      simpa [List.foldl_cons] using h
    rcases List.mem_cons.mp hp with h1 | h1
    · subst h1
      have hstep : ∃ q, pickLater u acc p = some q ∧ p.created_at ≤ q.created_at := by
        cases acc with
        | none => exact ⟨p, by simp [pickLater, hpu], le_refl _⟩
        | some q =>
          by_cases hlt : q.created_at < p.created_at
          · exact ⟨p, by simp [pickLater, hpu, hlt], le_refl _⟩
          · exact ⟨q, by simp [pickLater, hpu, hlt], Nat.le_of_not_lt hlt⟩
      obtain ⟨q, hq, hle⟩ := hstep
      obtain ⟨r', hr', hle'⟩ := pick_mono l q
      rw [hq] at hfold
      rw [hfold] at hr'
      cases hr'
      exact le_trans hle hle'
    · exact ih (pickLater u acc a) r hfold p h1 hpu

theorem pick_append_max {u : Nat} (l : List PaymentRow) (np : PaymentRow)
    (hnp : np.user_id = u)
    (hmax : ∀ p ∈ l, p.user_id = u → p.created_at < np.created_at) :
    (l ++ [np]).foldl (pickLater u) none = some np := by
  rw [List.foldl_append]
  rcases hacc : l.foldl (pickLater u) none with _ | q
  · simp [List.foldl_cons, pickLater, hnp]
  · rcases pick_result_mem l none q hacc with h1 | h1
    · cases h1
    · have hlt : q.created_at < np.created_at := hmax q h1.1 h1.2
      simp [List.foldl_cons, pickLater, hnp, hlt]

/-- Strictly increasing `created_at` makes `created_at` injective on rows. -/
theorem pairwise_created_at_inj :
    ∀ (l : List PaymentRow),
      l.Pairwise (fun a b => a.created_at < b.created_at) →
      ∀ p ∈ l, ∀ q ∈ l, p.created_at = q.created_at → p = q := by
  intro l
  induction l with
  | nil => intro _ p hp; cases hp
  | cons a l ih =>
    intro hpw p hp q hq heq
    have hpw' := List.pairwise_cons.mp hpw
    rcases List.mem_cons.mp hp with h1 | h1 <;> rcases List.mem_cons.mp hq with h2 | h2
    · rw [h1, h2]
    · exact absurd (h1 ▸ heq) (Nat.ne_of_lt (hpw'.1 q h2))
    · exact absurd (h2 ▸ heq.symm) (Nat.ne_of_lt (hpw'.1 p h1))
    · exact ih hpw'.2 p h1 q h2 heq

/-! ### claim theorems -/

/-- C1: `add_referral` is idempotent — a second identical invocation leaves
the referrals table unchanged, and starting from a table with no row
colliding on the uniqueness key `(referrer, referred, COALESCE(source,''))`,
exactly one row with the exact triple `(A, B, s)` is stored. -/
theorem add_edge_idempotent (db : DB) (A B : Nat) (s : Option String) :
    (add_referral (add_referral db A B s) A B s).referrals =
      (add_referral db A B s).referrals ∧
    ((∀ r ∈ db.referrals, ¬ referral_key_match A B s r) →
      ((add_referral db A B s).referrals.filter (fun r =>
        r.referrer_id == A && r.referred_user_id == B && r.source == s)).length = 1) := by
  have hnoop : ∀ (d : DB), (∃ r ∈ d.referrals, referral_key_match A B s r) →
      (add_referral d A B s).referrals = d.referrals := by
    intro d hd
    unfold add_referral
    rw [if_pos hd]
  constructor
  · have hkey : ∃ r ∈ (add_referral db A B s).referrals,
        referral_key_match A B s r := by
      by_cases h : ∃ r ∈ db.referrals, referral_key_match A B s r
      · obtain ⟨r, hr, hk⟩ := h
        refine ⟨r, ?_, hk⟩
        rw [hnoop db ⟨r, hr, hk⟩]
        exact hr
      · refine ⟨⟨db.clock, A, B, s, db.clock⟩, ?_, by simp [referral_key_match]⟩
        unfold add_referral
        rw [if_neg h]
        simp
    exact hnoop _ hkey
  · intro h0
    have hno : ¬ ∃ r ∈ db.referrals, referral_key_match A B s r := by
      rintro ⟨r, hr, hk⟩; exact h0 r hr hk
    have h1 : (add_referral db A B s).referrals =
        db.referrals ++ [⟨db.clock, A, B, s, db.clock⟩] := by
      unfold add_referral
      rw [if_neg hno]
    rw [h1, List.filter_append]
    have h2 : db.referrals.filter (fun r =>
        r.referrer_id == A && r.referred_user_id == B && r.source == s) = [] := by
      rw [List.filter_eq_nil_iff]
      intro r hr hb
      simp only [Bool.and_eq_true, beq_iff_eq] at hb
      exact h0 r hr ⟨hb.1.1, hb.1.2, by rw [hb.2]⟩
    rw [h2]
    simp

/-- C1 witness: from the empty database, two identical `add_referral` calls
store exactly one `(1, 2, "x")` edge and the second call changes nothing. -/
theorem add_edge_idempotent_witness :
    (add_referral (add_referral DB.empty 1 2 (some "x")) 1 2 (some "x")).referrals =
      (add_referral DB.empty 1 2 (some "x")).referrals ∧
    ((add_referral DB.empty 1 2 (some "x")).referrals.filter (fun r =>
      r.referrer_id == 1 && r.referred_user_id == 2 && r.source == some "x")).length = 1 :=
  ⟨(add_edge_idempotent DB.empty 1 2 (some "x")).1,
   (add_edge_idempotent DB.empty 1 2 (some "x")).2 (by intro r hr; cases hr)⟩

/-- C5: resolving the latest payment of a user with zero payment rows is a
silent no-op — the payments table and every `get_approval_stats` count are
unchanged. -/
theorem resolve_latest_no_rows (db : DB) (U : Nat) (st : String)
    (reason : Option String) (h : ∀ p ∈ db.payments, p.user_id ≠ U) :
    (update_payment_status db U st reason).payments = db.payments ∧
    get_approval_stats (update_payment_status db U st reason) =
      get_approval_stats db := by
  have hl : latest_for db U = none := pick_no_match db.payments none h
  unfold update_payment_status
  rw [hl]
  exact ⟨rfl, rfl⟩

/-- C5 witness: on a database holding one payment of user 7, resolving for
the paymentless user 9 changes neither the table nor the stats. -/
theorem resolve_latest_no_rows_witness :
    (update_payment_status (log_payment DB.empty 7 none "bank") 9 "approved" none).payments =
      (log_payment DB.empty 7 none "bank").payments ∧
    get_approval_stats
        (update_payment_status (log_payment DB.empty 7 none "bank") 9 "approved" none) =
      get_approval_stats (log_payment DB.empty 7 none "bank") :=
  resolve_latest_no_rows (log_payment DB.empty 7 none "bank") 9 "approved" none
    (by decide)

/-- C6: `log_payment` (a `pending` submission) followed by
`update_payment_status(U, "approved")` raises the approved count by exactly
one and returns the pending count to its pre-submission value. -/
theorem submit_then_approve_stats (db : DB) (U : Nat) (uname : Option String)
    (m : String) (reason : Option String) (h : Inv db) :
    (get_approval_stats
        (update_payment_status (log_payment db U uname m) U "approved" reason)).approved =
      (get_approval_stats db).approved + 1 ∧
    (get_approval_stats
        (update_payment_status (log_payment db U uname m) U "approved" reason)).pending =
      (get_approval_stats db).pending := by
  obtain ⟨-, hclk, hid⟩ := h
  have hlatest : latest_for (log_payment db U uname m) U =
      some ⟨db.clock, U, uname, m, "pending", none, db.clock, db.clock⟩ := by
    unfold latest_for log_payment
    exact pick_append_max db.payments _ rfl (fun p hp _ => hclk p hp)
  have hmap : (update_payment_status (log_payment db U uname m) U "approved" reason).payments =
      db.payments ++
        [⟨db.clock, U, uname, m, "approved", reason, db.clock, db.clock + 1⟩] := by
    unfold update_payment_status
    rw [hlatest]
    show (db.payments ++ [_]).map _ = _
    rw [List.map_append]
    congr 1
    · refine (List.map_congr_left ?_).trans (List.map_id db.payments)
      intro p hp
      have h1 : p.id = p.created_at := hid p hp
      have h2 : p.created_at < db.clock := hclk p hp
      have hne : p.id ≠ db.clock := by omega
      simp [hne]
    · simp [log_payment]
  constructor
  · simp only [get_approval_stats]
    rw [hmap, List.countP_append]
    simp
  · simp only [get_approval_stats]
    rw [hmap, List.countP_append]
    simp

/-- C6 witness: from the empty database, a submission by user 42 followed by
an approved resolution yields approved = 1 and pending = 0. -/
theorem submit_then_approve_stats_witness :
    (get_approval_stats
        (update_payment_status (log_payment DB.empty 42 none "bank") 42 "approved" none)).approved =
      (get_approval_stats DB.empty).approved + 1 ∧
    (get_approval_stats
        (update_payment_status (log_payment DB.empty 42 none "bank") 42 "approved" none)).pending =
      (get_approval_stats DB.empty).pending :=
  submit_then_approve_stats DB.empty 42 none "bank" none
    (by refine ⟨?_, ?_, ?_⟩ <;> decide)

/-- C7: on a user with at least one payment row, `update_payment_status`
rewrites exactly the most-recently-created row of that user (status, reason,
updated_at) and leaves every other row — of that user or any other —
unchanged. -/
theorem resolve_latest_frame (db : DB) (U : Nat) (st : String)
    (reason : Option String) (hInv : Inv db)
    (hex : ∃ p ∈ db.payments, p.user_id = U) :
    ∃ q, latest_for db U = some q ∧ q ∈ db.payments ∧ q.user_id = U ∧
      (∀ p ∈ db.payments, p.user_id = U → p.created_at ≤ q.created_at) ∧
      (∀ p ∈ db.payments, p.id = q.id → p = q) ∧
      (update_payment_status db U st reason).payments =
        db.payments.map (fun p => if p.id = q.id then
          { p with status := st, reason := reason, updated_at := db.clock } else p) ∧
      (∀ p ∈ db.payments, p.id ≠ q.id →
        p ∈ (update_payment_status db U st reason).payments) := by
  obtain ⟨hpw, -, hid⟩ := hInv
  obtain ⟨q, hq⟩ := pick_exists db.payments none hex
  have hq' : latest_for db U = some q := hq
  have hmem : q ∈ db.payments ∧ q.user_id = U := by
    rcases pick_result_mem db.payments none q hq with h1 | h1
    · cases h1
    · exact h1
  refine ⟨q, hq', hmem.1, hmem.2, pick_result_max db.payments none q hq, ?_, ?_, ?_⟩
  · intro p hp hpid
    have : p.created_at = q.created_at := by
      rw [← hid p hp, ← hid q hmem.1, hpid]
    exact pairwise_created_at_inj db.payments hpw p hp q hmem.1 this
  · unfold update_payment_status
    rw [hq']
  · intro p hp hpid
    have hfix : (if p.id = q.id then
        { p with status := st, reason := reason, updated_at := db.clock } else p) = p := by
      simp [hpid]
    unfold update_payment_status
    rw [hq']
    show p ∈ db.payments.map _
    rw [← hfix]
    exact List.mem_map_of_mem _ hp

/-- A concrete database with two payments of user 5 around one of user 8. -/
def frameDB : DB :=
  log_payment (log_payment (log_payment DB.empty 5 none "bank") 8 none "paypal")
    5 none "bit"

/-- C7 witness: on `frameDB`, rejecting user 5 rewrites only the later row
of user 5 and keeps every other row. -/
theorem resolve_latest_frame_witness :
    ∃ q, latest_for frameDB 5 = some q ∧ q ∈ frameDB.payments ∧ q.user_id = 5 ∧
      (∀ p ∈ frameDB.payments, p.user_id = 5 → p.created_at ≤ q.created_at) ∧
      (∀ p ∈ frameDB.payments, p.id = q.id → p = q) ∧
      (update_payment_status frameDB 5 "rejected" (some "blurry")).payments =
        frameDB.payments.map (fun p => if p.id = q.id then
          { p with status := "rejected", reason := some "blurry", updated_at := frameDB.clock } else p) ∧
      (∀ p ∈ frameDB.payments, p.id ≠ q.id →
        p ∈ (update_payment_status frameDB 5 "rejected" (some "blurry")).payments) :=
  resolve_latest_frame frameDB 5 "rejected" (some "blurry")
    (by refine ⟨?_, ?_, ?_⟩ <;> decide)
    (by decide)

/-! ### dedup-gate lemmas (C4) -/

/-- Invariant of the dedup state: the deque has no duplicates, mirrors into
the set, holds at most 1000 ids, and the set holds at most 1010 ids. -/
def DedupInv (s : DedupState) : Prop :=
  s.processed_ids.Nodup ∧
  (∀ x ∈ s.processed_ids, x ∈ s.processed_set) ∧
  s.processed_ids.length ≤ 1000 ∧
  s.processed_set.card ≤ 1010

theorem dedup_step_true (s : DedupState) (i : Nat) (hmem : i ∈ s.processed_set) :
    is_duplicate_update s i = (true, s) := by
  unfold is_duplicate_update
  rw [if_pos hmem]

theorem dedup_step_false (s : DedupState) (i : Nat) (hmem : i ∉ s.processed_set) :
    (is_duplicate_update s i).1 = false ∧
    i ∈ (is_duplicate_update s i).2.processed_set := by
  unfold is_duplicate_update
  rw [if_neg hmem]
  dsimp only
  refine ⟨?_, ?_⟩
  · split <;> split <;> rfl
  · split <;> split <;>
      first
        | exact Finset.mem_insert_self i _
        | exact Finset.mem_filter.mpr ⟨Finset.mem_insert_self i _,
            List.mem_append.mpr (Or.inr (List.mem_singleton.mpr rfl))⟩

theorem dedup_step_inv (s : DedupState) (i : Nat) (h : DedupInv s) :
    DedupInv (is_duplicate_update s i).2 := by
  obtain ⟨hnd, hsub, hlen, hcard⟩ := h
  by_cases hmem : i ∈ s.processed_set
  · simpa [is_duplicate_update, hmem] using ⟨hnd, hsub, hlen, hcard⟩
  · have hnotid : i ∉ s.processed_ids := fun hx => hmem (hsub i hx)
    unfold is_duplicate_update
    rw [if_neg hmem]
    dsimp only
    set set1 := insert i s.processed_set with hset1
    set ids1 := if s.processed_ids.length = 1000 then s.processed_ids.tail ++ [i]
      else s.processed_ids ++ [i] with hids1
    have hnd1 : ids1.Nodup := by
      rw [hids1]
      split
      · rw [List.nodup_append]
        exact ⟨hnd.tail, List.nodup_singleton i,
          by simpa using fun hx => hnotid (List.mem_of_mem_tail hx)⟩
      · rw [List.nodup_append]
        exact ⟨hnd, List.nodup_singleton i, by simpa using hnotid⟩
    have hsub1 : ∀ x ∈ ids1, x ∈ set1 := by
      intro x hx
      rw [hids1] at hx
      have hxor : x ∈ s.processed_ids ∨ x = i := by
        by_cases hx' : s.processed_ids.length = 1000
        · rw [if_pos hx'] at hx
          rcases List.mem_append.mp hx with h1 | h1
          · exact Or.inl (List.mem_of_mem_tail h1)
          · exact Or.inr (by simpa using h1)
        · rw [if_neg hx'] at hx
          rcases List.mem_append.mp hx with h1 | h1
          · exact Or.inl h1
          · exact Or.inr (by simpa using h1)
      rcases hxor with h1 | h1
      · exact Finset.mem_insert_of_mem (hsub x h1)
      · rw [h1]; exact Finset.mem_insert_self i _
    have hlen1 : ids1.length ≤ 1000 := by
      rw [hids1]
      split
      · simp only [List.length_append, List.length_tail, List.length_singleton]
        omega
      · simp only [List.length_append, List.length_singleton]
        omega
    by_cases hcomp : set1.card > ids1.length + 10
    · rw [if_pos hcomp]
      refine ⟨hnd1, ?_, hlen1, ?_⟩
      · intro x hx
        exact Finset.mem_filter.mpr ⟨hsub1 x hx, hx⟩
      · show (set1.filter (fun x => x ∈ ids1)).card ≤ 1010
        have h1 : set1.filter (fun x => x ∈ ids1) ⊆ ids1.toFinset := by
          intro x hx
          exact List.mem_toFinset.mpr (Finset.mem_filter.mp hx).2
        calc (set1.filter (fun x => x ∈ ids1)).card
            ≤ ids1.toFinset.card := Finset.card_le_card h1
          _ ≤ ids1.length := ids1.toFinset_card_le
          _ ≤ 1010 := by omega
    · rw [if_neg hcomp]
      refine ⟨hnd1, hsub1, hlen1, ?_⟩
      show set1.card ≤ 1010
      omega

theorem dedup_run_inv (l : List Nat) :
    ∀ (s : DedupState), DedupInv s → DedupInv (run_dedup s l) := by
  induction l with
  | nil => intro s h; exact h
  | cons i l ih =>
    intro s h
    exact ih (is_duplicate_update s i).2 (dedup_step_inv s i h)

/-- C4: the dedup gate returns `true` exactly when the id is already
recorded; a freshly recorded id is in the retained set afterwards, so an
immediate re-delivery returns `true`; and along any sequence of ids the
retained set never exceeds 1,010 distinct ids (with the deque capped at
1,000) — retention is bounded, not strict LRU. -/
theorem seen_or_mark_contract (s : DedupState) (i : Nat) (l : List Nat)
    (h : DedupInv s) :
    ((is_duplicate_update s i).1 = true ↔ i ∈ s.processed_set) ∧
    i ∈ (is_duplicate_update s i).2.processed_set ∧
    (is_duplicate_update (is_duplicate_update s i).2 i).1 = true ∧
    DedupInv (is_duplicate_update s i).2 ∧
    (run_dedup s l).processed_set.card ≤ 1010 ∧
    (run_dedup s l).processed_ids.length ≤ 1000 := by
  have hstep := dedup_step_inv s i h
  have hrun := dedup_run_inv l s h
  have hmem2 : i ∈ (is_duplicate_update s i).2.processed_set := by
    by_cases hmem : i ∈ s.processed_set
    · rw [dedup_step_true s i hmem]; exact hmem
    · exact (dedup_step_false s i hmem).2
  refine ⟨?_, hmem2, ?_, hstep, hrun.2.2.2, hrun.2.2.1⟩
  · constructor
    · intro ht
      by_contra hmem
      rw [(dedup_step_false s i hmem).1] at ht
      cases ht
    · intro hmem
      rw [dedup_step_true s i hmem]
  · rw [dedup_step_true _ i hmem2]

/-- C4 witness: from the empty dedup state, id 3 is not yet recorded so the
first decision is not `true`, the call records it, a repeat returns `true`,
and a short run keeps the bounds. -/
theorem seen_or_mark_contract_witness :
    ((is_duplicate_update DedupState.empty 3).1 = true ↔
      3 ∈ DedupState.empty.processed_set) ∧
    3 ∈ (is_duplicate_update DedupState.empty 3).2.processed_set ∧
    (is_duplicate_update (is_duplicate_update DedupState.empty 3).2 3).1 = true ∧
    DedupInv (is_duplicate_update DedupState.empty 3).2 ∧
    (run_dedup DedupState.empty [1, 2, 3, 1]).processed_set.card ≤ 1010 ∧
    (run_dedup DedupState.empty [1, 2, 3, 1]).processed_ids.length ≤ 1000 :=
  seen_or_mark_contract DedupState.empty 3 [1, 2, 3, 1]
    (by refine ⟨?_, ?_, ?_, ?_⟩ <;> decide)

/-! ### telemetry-graph lemmas (C8, C9, C10) -/

/-- After `add_relation g r v` (with `r ≠ v`), every entry keyed `r` holds `v`. -/
theorem add_relation_holds_visitor (g : List (Nat × List Nat)) (r v : Nat)
    (hne : r ≠ v) :
    ∀ e ∈ add_relation g r v, e.1 = r → v ∈ e.2 := by
  unfold add_relation
  rw [if_neg hne]
  split
  · intro e he hkey
    rcases List.mem_map.mp he with ⟨e0, he0, rfl⟩
    by_cases hk : e0.1 = r
    · simp only [hk, if_pos]
      split <;> simp_all
    · simp only [if_neg hk] at hkey ⊢
      exact absurd hkey hk
  · intro e he hkey
    rcases List.mem_append.mp he with h1 | h1
    · rename_i hany
      have hb : (e.1 == r) = true := by simp [hkey]
      exact absurd (List.any_eq_true.mpr ⟨e, h1, hb⟩) hany
    · have : e = (r, [v]) := by simpa using h1
      simp [this]

/-- After `add_relation g r v` some entry is keyed `r` (with `r ≠ v`). -/
theorem add_relation_has_key (g : List (Nat × List Nat)) (r v : Nat)
    (hne : r ≠ v) :
    (add_relation g r v).any (fun e => e.1 == r) = true := by
  unfold add_relation
  rw [if_neg hne]
  split
  · rename_i hany
    rcases List.any_eq_true.mp hany with ⟨e, he, hkey⟩
    refine List.any_eq_true.mpr ⟨(e.1, if v ∈ e.2 then e.2 else e.2 ++ [v]), ?_, hkey⟩
    refine List.mem_map.mpr ⟨e, he, ?_⟩
    rw [if_pos (by simpa using hkey)]
  · exact List.any_eq_true.mpr ⟨(r, [v]), List.mem_append.mpr (Or.inr (by simp)), by simp⟩

/-- `_add_relation` is a no-op when every entry keyed `r` already holds `v`
and at least one entry is keyed `r`. -/
theorem add_relation_noop (g : List (Nat × List Nat)) (r v : Nat)
    (hkey : g.any (fun e => e.1 == r) = true)
    (hv : ∀ e ∈ g, e.1 = r → v ∈ e.2) :
    add_relation g r v = g := by
  unfold add_relation
  split
  · rfl
  · refine (List.map_congr_left ?_).trans (List.map_id g)
    intro e he
    by_cases hk : e.1 = r
    · rw [if_pos hk, if_pos (hv e he hk)]
      rfl
    · rw [if_neg hk]
      rfl

/-- The second identical `_add_relation` changes nothing. -/
theorem add_relation_idem (g : List (Nat × List Nat)) (r v : Nat) (hne : r ≠ v) :
    add_relation (add_relation g r v) r v = add_relation g r v :=
  add_relation_noop _ r v (add_relation_has_key g r v hne)
    (add_relation_holds_visitor g r v hne)

/-- C9: edge insertion in the telemetry graph is idempotent while visit
logging is not — a second `track_visit(R, some V, s)` with a known visitor
`V ∉ {0}` distinct from `R` leaves the summed relation count (stats'
`total_relations`) unchanged and still appends one more visit event. -/
theorem track_visit_edge_idem_visits_grow (t : TelemetryState) (R V : Nat)
    (src : Option String) (ts1 ts2 : Option Nat) (now1 now2 : Nat)
    (hV0 : V ≠ 0) (hVR : V ≠ R) :
    total_relations
        (track_visit (track_visit t R (some V) src ts1 now1) R (some V) src ts2 now2).graph =
      total_relations (track_visit t R (some V) src ts1 now1).graph ∧
    (track_visit (track_visit t R (some V) src ts1 now1) R (some V) src ts2 now2).visits.length =
      (track_visit t R (some V) src ts1 now1).visits.length + 1 := by
  have hRV : R ≠ V := fun h => hVR h.symm
  constructor
  · simp only [track_visit, hV0, if_pos, ite_true, ne_eq, not_false_eq_true]
    rw [add_relation_idem t.graph R V hRV]
  · simp [track_visit, hV0]

/-- C9 witness: from the empty telemetry state, repeating
`track_visit 1 (some 2)` keeps relations stable and grows visits by one. -/
theorem track_visit_edge_idem_visits_grow_witness :
    total_relations
        (track_visit (track_visit TelemetryState.empty 1 (some 2) none none 5) 1 (some 2) none none 6).graph =
      total_relations (track_visit TelemetryState.empty 1 (some 2) none none 5).graph ∧
    (track_visit (track_visit TelemetryState.empty 1 (some 2) none none 5) 1 (some 2) none none 6).visits.length =
      (track_visit TelemetryState.empty 1 (some 2) none none 5).visits.length + 1 :=
  track_visit_edge_idem_visits_grow TelemetryState.empty 1 2 none none none 5 6
    (by decide) (by decide)

/-- C10: a visitor id of 0 is falsy in `if req.visitor_id:`, so
`track_visit(R, some 0, s)` appends the visit event but never touches the
graph — even when 0 is a recorded graph user distinct from `R`. -/
theorem track_visit_zero_visitor (t : TelemetryState) (R : Nat)
    (src : Option String) (ts : Option Nat) (now : Nat)
    (h0 : is_graph_user t.graph 0) (hR : R ≠ 0) :
    (track_visit t R (some 0) src ts now).graph = t.graph ∧
    ∃ e, (track_visit t R (some 0) src ts now).visits = t.visits ++ [e] ∧
      e.referrer_id = R ∧ e.visitor_id = some 0 := by
  exact ⟨rfl, _, rfl, rfl, rfl⟩

/-- C10 witness: with 0 recorded as a child of 5, `track_visit 1 (some 0)`
leaves the graph unchanged and appends the visit event. -/
theorem track_visit_zero_visitor_witness :
    (track_visit ⟨[(5, [0])], [], []⟩ 1 (some 0) none none 9).graph = [(5, [0])] ∧
    ∃ e, (track_visit ⟨[(5, [0])], [], []⟩ 1 (some 0) none none 9).visits = [] ++ [e] ∧
      e.referrer_id = 1 ∧ e.visitor_id = some 0 :=
  track_visit_zero_visitor ⟨[(5, [0])], [], []⟩ 1 none none 9
    (by decide) (by decide)

/-- `_build_tree` stops expanding as soon as `depth > max_depth`. -/
theorem build_tree_leaf_beyond (t : TelemetryState) (u d m : Nat) (h : d > m) :
    build_tree t u d m = .mk u (alias_of t u) [] := by
  rw [build_tree]
  rw [dif_pos h]

/-- Fuel-indexed depth bound for `_build_tree`: with `m + 1 - d` levels of
possible expansion left, the produced tree has node depth at most
`fuel + 1`. -/
theorem build_tree_depth (t : TelemetryState) :
    ∀ (fuel u d m : Nat), m + 1 - d ≤ fuel →
      DepthLe (fuel + 1) (build_tree t u d m) := by
  intro fuel
  induction fuel with
  | zero =>
    intro u d m h
    have hd : d > m := by omega
    rw [build_tree_leaf_beyond t u d m hd]
    exact .mk u _ [] 0 (by intro c hc; cases hc)
  | succ f ih =>
    intro u d m h
    by_cases hd : d > m
    · rw [build_tree_leaf_beyond t u d m hd]
      exact .mk u _ [] (f + 1) (by intro c hc; cases hc)
    · rw [build_tree, dif_neg hd]
      refine .mk u _ _ (f + 1) ?_
      intro c hc
      rcases List.mem_map.mp hc with ⟨c0, hc0, rfl⟩
      exact ih c0 (d + 1) m (by omega)

/-- C8: `tree(X, max_depth=6)` always terminates — `build_tree` is a total
function whose expansion is hard-capped by the depth check (`depth >
max_depth` yields a childless node), every produced tree has node depth at
most 8 = `max_depth + 2` (expansion happens at recursion depths 0..6, so
children exist down to level 7), and an unknown `X` yields a single node
with an empty child list rather than an error. -/
theorem referral_tree_capped (t : TelemetryState) (X d m : Nat) :
    (d > m → build_tree t X d m = .mk X (alias_of t X) []) ∧
    DepthLe 8 (get_referral_tree t X) ∧
    (¬ is_graph_user t.graph X → get_referral_tree t X = .mk X (alias_of t X) []) := by
  refine ⟨build_tree_leaf_beyond t X d m, ?_, ?_⟩
  · unfold get_referral_tree
    split
    · exact build_tree_depth t 7 X 0 6 (by omega)
    · exact .mk X _ [] 7 (by intro c hc; cases hc)
  · intro hX
    have hany : ¬ ((t.graph.any (fun e => e.1 == X)) = true) := by
      intro h
      rcases List.any_eq_true.mp h with ⟨e, he, hkey⟩
      exact hX ⟨e, he, Or.inl (by simpa using hkey)⟩
    have hcond : ¬ (is_graph_user t.graph X ∨
        (t.graph.any (fun e => e.1 == X)) = true) := by
      rintro (h | h)
      · exact hX h
      · exact hany h
    unfold get_referral_tree
    rw [if_neg hcond]

/-- C8 witness: on a two-node cyclic graph, an unrecorded user 9 gets a
childless node and the cap holds at concrete depths. -/
theorem referral_tree_capped_witness :
    (build_tree ⟨[(1, [2]), (2, [1])], [], []⟩ 9 7 6 =
      .mk 9 (alias_of ⟨[(1, [2]), (2, [1])], [], []⟩ 9) []) ∧
    DepthLe 8 (get_referral_tree ⟨[(1, [2]), (2, [1])], [], []⟩ 9) ∧
    (get_referral_tree ⟨[(1, [2]), (2, [1])], [], []⟩ 9 =
      .mk 9 (alias_of ⟨[(1, [2]), (2, [1])], [], []⟩ 9) []) :=
  ⟨(referral_tree_capped ⟨[(1, [2]), (2, [1])], [], []⟩ 9 7 6).1 (by decide),
   (referral_tree_capped ⟨[(1, [2]), (2, [1])], [], []⟩ 9 7 6).2.1,
   (referral_tree_capped ⟨[(1, [2]), (2, [1])], [], []⟩ 9 7 6).2.2 (by decide)⟩

/-! ### promoter-summary lemmas (C2) -/

theorem update_payment_status_promoters (db : DB) (u : Nat) (st : String)
    (r : Option String) :
    (update_payment_status db u st r).promoters = db.promoters := by
  unfold update_payment_status
  cases latest_for db u <;> rfl

theorem update_payment_status_referrals (db : DB) (u : Nat) (st : String)
    (r : Option String) :
    (update_payment_status db u st r).referrals = db.referrals := by
  unfold update_payment_status
  cases latest_for db u <;> rfl

theorem add_referral_payments (db : DB) (a b : Nat) (s : Option String) :
    (add_referral db a b s).payments = db.payments := by
  unfold add_referral
  split <;> rfl

theorem add_referral_promoters (db : DB) (a b : Nat) (s : Option String) :
    (add_referral db a b s).promoters = db.promoters := by
  unfold add_referral
  split <;> rfl

theorem ensure_promoter_payments (db : DB) (u : Nat) :
    (ensure_promoter db u).payments = db.payments := by
  unfold ensure_promoter
  split <;> rfl

theorem ensure_promoter_referrals (db : DB) (u : Nat) :
    (ensure_promoter db u).referrals = db.referrals := by
  unfold ensure_promoter
  split <;> rfl

/-- After `ensure_promoter`, a promoter row for the user is found. -/
theorem ensure_promoter_find (db : DB) (u : Nat) :
    ((ensure_promoter db u).promoters.find? (fun x => x.user_id == u)).isSome := by
  unfold ensure_promoter
  split
  · rename_i hany
    rw [List.find?_isSome]
    rcases List.any_eq_true.mp hany with ⟨pr, hpr, hb⟩
    exact ⟨pr, hpr, hb⟩
  · rw [List.find?_isSome]
    exact ⟨⟨u, none, none, none, none, db.clock, db.clock⟩, by simp, by simp⟩

/-- The quantity the spec's words describe for `approved_referred`: the
number of distinct referred users whose most-recently-created payment has
status approved.  Stated for comparison with the implementation's
`approved_join_count`. -/
def spec_approved_referred (db : DB) (u : Nat) : Nat :=
  (dedupFirst ((db.referrals.filter (fun r => r.referrer_id == u)).map
      (fun r => r.referred_user_id))).countP
    (fun v => match latest_for db v with
      | some p => p.status == "approved"
      | none => false)

/-- Promoter 1 refers user 2, and user 2 has two payments that were both
resolved approved (the second being the latest). -/
def c2db : DB :=
  update_payment_status
    (log_payment
      (update_payment_status
        (log_payment (add_referral (ensure_promoter DB.empty 1) 1 2 none) 2 none "bank")
        2 "approved" none)
      2 none "bank")
    2 "approved" none

/-- C2 counterexample: on `c2db`, `get_promoter_summary` reports
`approved_referrals = 2` — one per approved payment row of the referred
user — while only 1 distinct referred user has an approved latest payment,
so `approved_referrals` is not the claimed distinct-user count. -/
theorem approved_referrals_not_distinct_users :
    (get_promoter_summary c2db 1).map (fun x => x.approved_referrals) = some 2 ∧
    spec_approved_referred c2db 1 = 1 ∧
    (get_promoter_summary c2db 1).map (fun x => x.approved_referrals) ≠
      some (spec_approved_referred c2db 1) := by
  refine ⟨?_, ?_, ?_⟩ <;> decide

/-- C2 (amended): `approved_referrals` counts (referral edge, approved
payment) join pairs — every approved payment row of a referred user once
per edge — not distinct referred users by latest payment; in the particular
scenario ensure(U), add_edge(U,V,s), one submission by V and one approved
resolution, the summary still reports `total_referrals = 1` and
`approved_referrals = 1`. -/
theorem approved_referrals_scenario (db : DB) (U V : Nat) (s : Option String)
    (uname : Option String) (m : String) (hInv : Inv db)
    (hU : ∀ r ∈ db.referrals, r.referrer_id ≠ U)
    (hV : ∀ p ∈ db.payments, p.user_id ≠ V) :
    (get_promoter_summary
        (update_payment_status
          (log_payment (add_referral (ensure_promoter db U) U V s) V uname m)
          V "approved" none)
        U).map (fun x => (x.total_referrals, x.approved_referrals)) = some (1, 1) := by
  obtain ⟨-, hclk, hid⟩ := hInv
  set db1 := ensure_promoter db U with hdb1
  set db2 := add_referral db1 U V s with hdb2
  set db3 := log_payment db2 V uname m with hdb3
  set db4 := update_payment_status db3 V "approved" none with hdb4
  have h1r : db1.referrals = db.referrals := ensure_promoter_referrals db U
  have h1p : db1.payments = db.payments := ensure_promoter_payments db U
  have h2r : db2.referrals = db.referrals ++ [⟨db1.clock, U, V, s, db1.clock⟩] := by
    have hno : ¬ ∃ r ∈ db1.referrals, referral_key_match U V s r := by
      rintro ⟨r, hr, hk⟩
      rw [h1r] at hr
      exact hU r hr hk.1
    rw [hdb2]
    unfold add_referral
    rw [if_neg hno, h1r]
  have h2p : db2.payments = db.payments := by
    rw [hdb2, add_referral_payments, h1p]
  have h3p : db3.payments =
      db.payments ++ [⟨db2.clock, V, uname, m, "pending", none, db2.clock, db2.clock⟩] := by
    rw [hdb3]
    unfold log_payment
    rw [h2p]
  have h3r : db3.referrals = db2.referrals := rfl
  have hlatest : latest_for db3 V =
      some ⟨db2.clock, V, uname, m, "pending", none, db2.clock, db2.clock⟩ := by
    unfold latest_for
    rw [h3p]
    exact pick_append_max db.payments _ rfl (fun p hp hpu => absurd hpu (hV p hp))
  have hidlt : ∀ p ∈ db.payments, p.id ≠ db2.clock := by
    intro p hp
    have h1 : p.id = p.created_at := hid p hp
    have h2 : p.created_at < db.clock := hclk p hp
    have h3 : db.clock ≤ db2.clock := by
      have hc1 : db1.clock = db.clock + 1 := by
        rw [hdb1]; unfold ensure_promoter; split <;> rfl
      have hc2 : db2.clock = db1.clock + 1 := by
        rw [hdb2]; unfold add_referral; split <;> rfl
      omega
    omega
  have h4p : db4.payments = db.payments ++
      [⟨db2.clock, V, uname, m, "approved", none, db2.clock, db3.clock⟩] := by
    rw [hdb4]
    unfold update_payment_status
    rw [hlatest]
    show db3.payments.map _ = _
    rw [h3p, List.map_append]
    congr 1
    · refine (List.map_congr_left ?_).trans (List.map_id db.payments)
      intro p hp
      simp [hidlt p hp]
    · simp
  have h4r : db4.referrals = db.referrals ++ [⟨db1.clock, U, V, s, db1.clock⟩] := by
    rw [hdb4, update_payment_status_referrals, h3r, h2r]
  have h4pr : db4.promoters = db1.promoters := by
    rw [hdb4, update_payment_status_promoters, hdb3]
    show db2.promoters = db1.promoters
    rw [hdb2, add_referral_promoters]
  have hfind := ensure_promoter_find db U
  rw [← hdb1] at hfind
  rcases hpr : db1.promoters.find? (fun x => x.user_id == U) with _ | pr
  · rw [hpr] at hfind; cases hfind
  · have hfilter : db4.referrals.filter (fun r => r.referrer_id == U) =
        [⟨db1.clock, U, V, s, db1.clock⟩] := by
      rw [h4r, List.filter_append]
      have hnil : db.referrals.filter (fun r => r.referrer_id == U) = [] := by
        rw [List.filter_eq_nil_iff]
        intro r hr hb
        exact hU r hr (by simpa using hb)
      rw [hnil]
      simp
    have hpay : (db4.payments.filter (fun p =>
        p.user_id == V && p.status == "approved")).length = 1 := by
      rw [h4p, List.filter_append]
      have hnil : db.payments.filter (fun p =>
          p.user_id == V && p.status == "approved") = [] := by
        rw [List.filter_eq_nil_iff]
        intro p hp hb
        simp only [Bool.and_eq_true, beq_iff_eq] at hb
        exact hV p hp hb.1
      rw [hnil]
      simp
    unfold get_promoter_summary
    rw [h4pr, hpr]
    refine congrArg some (Prod.ext ?_ ?_)
    · show (db4.referrals.filter (fun r => r.referrer_id == U)).length = 1
      rw [hfilter]
      rfl
    · show approved_join_count db4 U = 1
      unfold approved_join_count
      rw [hfilter]
      simpa using hpay

/-- C2 amended-claim witness: the scenario run from the empty database for
U = 10, V = 20 reports exactly one referral and one approved referral. -/
theorem approved_referrals_scenario_witness :
    (get_promoter_summary
        (update_payment_status
          (log_payment (add_referral (ensure_promoter DB.empty 10) 10 20 (some "x"))
            20 none "bank")
          20 "approved" none)
        10).map (fun x => (x.total_referrals, x.approved_referrals)) = some (1, 1) :=
  approved_referrals_scenario DB.empty 10 20 (some "x") none "bank"
    (by refine ⟨?_, ?_, ?_⟩ <;> decide) (by decide) (by decide)

/-! ### top-referrer ranking lemmas (C3) -/

theorem dedupFirst_aux :
    ∀ (l acc : List Nat) (x : Nat),
      (x ∈ l.foldl (fun acc y => if y ∈ acc then acc else acc ++ [y]) acc) ↔
        x ∈ acc ∨ x ∈ l := by
  intro l
  induction l with
  | nil => intro acc x; simp
  | cons y l ih =>
    intro acc x
    rw [List.foldl_cons, ih]
    by_cases hy : y ∈ acc
    · rw [if_pos hy]
      constructor
      · rintro (h | h)
        · exact Or.inl h
        · exact Or.inr (List.mem_cons_of_mem _ h)
      · rintro (h | h)
        · exact Or.inl h
        · rcases List.mem_cons.mp h with h1 | h1
          · exact Or.inl (h1 ▸ hy)
          · exact Or.inr h1
    · rw [if_neg hy]
      simp only [List.mem_append, List.mem_singleton, List.mem_cons]
      tauto

theorem dedupFirst_mem (l : List Nat) (x : Nat) :
    x ∈ dedupFirst l ↔ x ∈ l := by
  unfold dedupFirst
  rw [dedupFirst_aux]
  simp

/-- The ordering the spec's words describe: distinct referred-count
descending, ties broken by the referrer's summed reward points (straight
from the rewards ledger) descending.  Stated for comparison with the
implementation's `top_order`. -/
def spec_top_order (db : DB) (a b : TopReferrerEntry) : Prop :=
  b.total_referrals < a.total_referrals ∨
    (a.total_referrals = b.total_referrals ∧
      reward_points_sum db b.referrer_id ≤ reward_points_sum db a.referrer_id)

instance (db : DB) (a b : TopReferrerEntry) : Decidable (spec_top_order db a b) := by
  unfold spec_top_order; infer_instance

/-- Referrer 1 has one distinct referred user via two referral rows
(sources "a" and "b") and 60 reward points; referrer 3 has one distinct
referred user via one row and 100 reward points. -/
def c3db : DB :=
  create_reward
    (create_reward
      (add_referral (add_referral (add_referral DB.empty 1 2 (some "a")) 1 2 (some "b"))
        3 4 none)
      1 "SLH" none 60)
    3 "SLH" none 100

/-- C3 counterexample: the tie between referrers 1 and 3 (one distinct
referred user each) is broken by the join-multiplied points (2·60 = 120 vs
1·100 = 100), placing referrer 1 with the smaller reward-ledger sum (60 <
100) first — the output is not sorted by the claimed summed-points order. -/
theorem top_referrers_tiebreak_not_reward_sum :
    (get_top_referrers c3db 10).map
        (fun e => (e.referrer_id, e.total_referrals, e.total_points)) =
      [(1, 1, 120), (3, 1, 100)] ∧
    reward_points_sum c3db 1 = 60 ∧
    reward_points_sum c3db 3 = 100 ∧
    ¬ List.Sorted (spec_top_order c3db) (get_top_referrers c3db 10) := by
  refine ⟨?_, ?_, ?_, ?_⟩ <;> decide

/-- C3 (amended): `get_top_referrers` orders by distinct referred-count
descending with ties broken by the LEFT-JOIN-summed points — the
reward-points sum multiplied by the referrer's raw referral-row count —
descending (so a 3-distinct/0-point referrer still precedes any 2-distinct
referrer), and every referrer, rewards or none, appears once the limit
covers the referrer count. -/
theorem top_referrers_order (db : DB) (limit : Nat) :
    List.Sorted top_order (get_top_referrers db limit) ∧
    (∀ R, (∃ r ∈ db.referrals, r.referrer_id = R) →
      (dedupFirst (db.referrals.map (fun r => r.referrer_id))).length ≤ limit →
      ∃ e ∈ get_top_referrers db limit, e.referrer_id = R) := by
  constructor
  · have hs : List.Sorted top_order (List.insertionSort top_order
        ((dedupFirst (db.referrals.map (fun r => r.referrer_id))).map (entry_of db))) :=
      List.sorted_insertionSort top_order _
    exact List.Pairwise.sublist (List.take_sublist limit _) hs
  · intro R hR hlen
    have hmem : R ∈ dedupFirst (db.referrals.map (fun r => r.referrer_id)) := by
      rw [dedupFirst_mem]
      rcases hR with ⟨r, hr, hrid⟩
      exact List.mem_map.mpr ⟨r, hr, hrid⟩
    have hmem3 : entry_of db R ∈ List.insertionSort top_order
        ((dedupFirst (db.referrals.map (fun r => r.referrer_id))).map (entry_of db)) := by
      rw [List.mem_insertionSort]
      exact List.mem_map_of_mem _ hmem
    have hlen2 : (List.insertionSort top_order
        ((dedupFirst (db.referrals.map (fun r => r.referrer_id))).map (entry_of db))).length ≤
          limit := by
      rw [List.length_insertionSort, List.length_map]
      exact hlen
    refine ⟨entry_of db R, ?_, rfl⟩
    unfold get_top_referrers
    rw [List.take_of_length_le hlen2]
    exact hmem3

/-- C3 amended-claim witness: with a single zero-reward referrer 7, the
output is sorted and referrer 7 appears. -/
theorem top_referrers_order_witness :
    List.Sorted top_order (get_top_referrers (add_referral DB.empty 7 8 none) 10) ∧
    ∃ e ∈ get_top_referrers (add_referral DB.empty 7 8 none) 10, e.referrer_id = 7 :=
  ⟨(top_referrers_order (add_referral DB.empty 7 8 none) 10).1,
   (top_referrers_order (add_referral DB.empty 7 8 none) 10).2 7
     (by decide) (by decide)⟩

end BotShop
